import Mathlib

/-!
Verification development for the svd2pac register-access code generator.

The crate root (`src/lib.rs`) contains the CLI surface (`SvdValidationLevel`,
`Target`, `Args`, `main`); the generation pipeline lives in the `rust_gen`
and `svd_util` modules, which are not part of the sources available here.
Definitions for the pipeline are therefore modelled from the specification
(each such definition says so in its doc comment); the CLI surface is
embedded directly from `src/lib.rs`.
-/

/-! ## Data model and operations -/

/-- Modelled from the spec: the layout analyzer's bitfield mask
(`rust_gen` module, absent from the sources). The mask is always
right-aligned to bit 0: `mask = (1 << width) - 1`, independent of the
field's position. -/
def mask (width : Nat) : Nat := (1 <<< width) - 1

/-- Modelled from the spec: extraction of a bitfield value from a raw
register value (the generated `get` accessor): `(raw >> offset) & mask`. -/
def extractField (raw offset width : Nat) : Nat :=
  (raw >>> offset) &&& mask width

/-- Bitwise complement within a register of `rsize` bits (the fixed-width
`!x` of the generated code, embedded over `Nat` as XOR with all-ones). -/
def complementBits (rsize x : Nat) : Nat := (2 ^ rsize - 1) ^^^ x

/-- Modelled from the spec: insertion of a bitfield value into a raw
register value (the generated `set` accessor):
`(raw & !(mask << offset)) | ((value & mask) << offset)`. -/
def insertField (rsize raw offset width value : Nat) : Nat :=
  (raw &&& complementBits rsize (mask width <<< offset)) |||
    ((value &&& mask width) <<< offset)

structure ArrayDescriptor where
  dim : Nat
  dimIncrement : Nat
deriving DecidableEq, Repr

/-- Modelled from the spec: array expansion in the semantic model builder
(`rust_gen` module, absent from the sources). An entity whose base
address/offset is `base` and which carries a dimension descriptor
`{dim = N, dimIncrement = Δ}` is replaced by N concrete instances at
`base + k*Δ` for k = 0..N-1, preserving declaration order. -/
def expandArray (base : Nat) (desc : ArrayDescriptor) : List Nat :=
  (List.range desc.dim).map (fun k => base + k * desc.dimIncrement)

inductive Access where
  | readOnly
  | writeOnly
  | readWrite
deriving DecidableEq, Repr

structure Register where
  name : String
  addressOffset : Nat
  size : Nat
  access : Access
  resetValue : Nat
deriving DecidableEq, Repr

/-- Modelled from the spec: the register-merge step of `derivedFrom`
resolution in the semantic model builder (`rust_gen` module, absent from
the sources). A peripheral referencing a parent inherits the parent's
full register list by value before its own explicitly-declared registers
are merged in; an explicit register overrides an inherited one of the
same name. -/
def mergeRegisters (inherited own : List Register) : List Register :=
  inherited.filter (fun r => own.all (fun o => o.name != r.name)) ++ own

/-- Modelled from the spec: a peripheral's resolved register set — the
parent's registers (when `derivedFrom` names a parent) merged with the
peripheral's own registers. -/
def resolveDerived (parentRegisters : Option (List Register))
    (own : List Register) : List Register :=
  match parentRegisters with
  | none => own
  | some regs => mergeRegisters regs own

/-- Lookup of a register by name in a resolved register set. -/
def lookupRegister (n : String) (regs : List Register) : Option Register :=
  regs.find? (fun r => r.name == n)

structure BitfieldNode where
  name : String
  bitOffset : Nat
  bitWidth : Nat
deriving DecidableEq, Repr

inductive LayoutError where
  | fieldOutOfRange
  | overlappingFields
  | addressCollision
deriving DecidableEq, Repr

/-- Two bitfields overlap when some bit position lies in both half-open
ranges `[offset, offset+width)`. -/
def fieldsOverlap (f g : BitfieldNode) : Bool :=
  decide (max f.bitOffset g.bitOffset <
    min (f.bitOffset + f.bitWidth) (g.bitOffset + g.bitWidth))

/-- Pairwise disjointness of the bitfields of one register: each field is
checked against every later field. -/
def noFieldOverlaps : List BitfieldNode → Bool
  | [] => true
  | f :: rest => rest.all (fun g => !fieldsOverlap f g) && noFieldOverlaps rest

/-- Modelled from the spec: the layout analyzer's per-register check
(`rust_gen` module, absent from the sources). Every bitfield must satisfy
`offset + width ≤ register_size`, and no two distinct bitfields of the
same register may have intersecting bit ranges; a violation is a fatal
LayoutError. -/
def checkRegisterLayout (rsize : Nat) (fields : List BitfieldNode) :
    Except LayoutError Unit :=
  if !fields.all (fun f => decide (f.bitOffset + f.bitWidth ≤ rsize)) then
    .error .fieldOutOfRange
  else if !noFieldOverlaps fields then
    .error .overlappingFields
  else
    .ok ()

inductive ModelBuildError where
  | unresolvedDerivation
  | cyclicDerivation
  | enumValueOverflow
  | duplicateConcreteName
deriving DecidableEq, Repr

structure EnumeratedValue where
  name : String
  value : Nat
deriving DecidableEq, Repr

/-- Modelled from the spec: interning of enumerated values under their
owning bitfield in the semantic model builder (`rust_gen` module, absent
from the sources). Every value must fit the bitfield's `width` bits;
overflow is a fatal ModelBuildError. -/
def checkEnumeratedValues (width : Nat) (vs : List EnumeratedValue) :
    Except ModelBuildError Unit :=
  if vs.all (fun v => decide (v.value < 2 ^ width)) then .ok ()
  else .error .enumValueOverflow

inductive SvdValidationLevel where
  | Disabled
  | Weak
  | Strict
deriving DecidableEq, Repr

/-- The six documented-limitation tags (src/lib.rs lines 30-35): accepted
in the input but ignored by the tool. -/
structure IgnoredTags where
  resetMask : Option Nat
  protection : Option String
  writeConstraint : Option String
  modifiedWriteValues : Option String
  readAction : Option String
  headerEnumName : Option String
deriving DecidableEq, Repr

/-- A raw (parsed, not yet validated) register node of the input
document. -/
structure RawRegister where
  name : String
  addressOffset : Option Nat
  size : Option Nat
  access : Option Access
  resetValue : Option Nat
  ignoredTags : IgnoredTags
deriving DecidableEq, Repr

/-- Device-level defaults for register size, access and reset value
(spec §3, Device). -/
structure DeviceDefaults where
  size : Nat
  access : Access
  resetValue : Nat
deriving DecidableEq, Repr

inductive ValidationError where
  | missingRequiredAttribute
  | missingAddress
deriving DecidableEq, Repr

/-- Modelled from the spec: the validator's per-register policy
(`rust_gen` module, absent from the sources). A missing register address
makes layout computation impossible and fails at every level; at Strict
every required attribute (size, access, reset value) must be present; at
Weak (and Disabled) missing optional attributes fall back to the
device-level defaults. The documented-limitation tags are never
inspected. -/
def validateRegister (lvl : SvdValidationLevel) (defaults : DeviceDefaults)
    (r : RawRegister) : Except ValidationError Register :=
  match r.addressOffset with
  | none => .error .missingAddress
  | some addr =>
    match lvl with
    | .Strict =>
      match r.size, r.access, r.resetValue with
      | some s, some a, some rv => .ok ⟨r.name, addr, s, a, rv⟩
      | _, _, _ => .error .missingRequiredAttribute
    | _ => .ok ⟨r.name, addr, r.size.getD defaults.size,
        r.access.getD defaults.access, r.resetValue.getD defaults.resetValue⟩

/-- A concrete register after model build and layout: a name and an
absolute address. -/
structure ConcreteRegister where
  name : String
  address : Nat
deriving DecidableEq, Repr

/-- Modelled from the spec: the functional behaviour of the `reg_name`
lookup emitted with tracing enabled (`rust_gen` module, absent from the
sources): the map from a physical address to the names of all registers
that reside at that address. -/
def reg_name_from_addr (regs : List ConcreteRegister) (addr : Nat) :
    List String :=
  (regs.filter (fun r => r.address == addr)).map (fun r => r.name)

inductive Target where
  | Generic
  | Aurix
  | CortexM
deriving DecidableEq, Repr

/-- A raw peripheral node of the parsed document. -/
structure RawPeripheralNode where
  name : String
  baseAddress : Nat
  arrayDesc : Option ArrayDescriptor
  registers : List RawRegister
deriving DecidableEq, Repr

/-- A parsed input document: device name, device-level defaults, ordered
peripherals. -/
structure Document where
  deviceName : String
  defaults : DeviceDefaults
  peripherals : List RawPeripheralNode
deriving DecidableEq, Repr

/-- The generation configuration the pipeline consumes (spec §6). -/
structure GenConfig where
  svd_validation_level : SvdValidationLevel
  target : Target
  tracing : Bool
  package_name : Option String
deriving DecidableEq, Repr

/-- The concrete base addresses of a peripheral after array expansion. -/
def expandPeripheralAddresses (p : RawPeripheralNode) : List Nat :=
  match p.arrayDesc with
  | none => [p.baseAddress]
  | some d => expandArray p.baseAddress d

/-- Validation of all registers of one peripheral. -/
def validateAllRegisters (lvl : SvdValidationLevel)
    (defaults : DeviceDefaults) (rs : List RawRegister) :
    Except ValidationError (List Register) :=
  rs.mapM (validateRegister lvl defaults)

/-- The concrete registers of one peripheral: one instance per expanded
base address and validated register. -/
def concreteRegisters (addrs : List Nat) (regs : List Register) :
    List ConcreteRegister :=
  addrs.flatMap (fun a => regs.map (fun r => ⟨r.name, a + r.addressOffset⟩))

/-- Modelled from the spec: the address→name table construction. The real
tool builds a minimal perfect hash (`rust_gen` module, absent from the
sources); its functional content is the association of each distinct
address with the names of the registers residing there. -/
def buildNameMap (regs : List ConcreteRegister) : List (Nat × List String) :=
  ((regs.map (fun r => r.address)).dedup).map
    (fun a => (a, reg_name_from_addr regs a))

/-- The output artifact of one pipeline run: the concrete register set
and (when tracing is enabled) the address→name table. -/
structure GeneratedOutput where
  registers : List ConcreteRegister
  nameMap : List (Nat × List String)
deriving DecidableEq, Repr

/-- Modelled from the spec: the strictly sequential generation pipeline
(validate → expand → lay out → emit), composed from the stage functions
above; the `rust_gen` module implementing it is absent from the
sources. -/
def runPipeline (cfg : GenConfig) (doc : Document) :
    Except ValidationError GeneratedOutput := do
  let perPeripheral ← doc.peripherals.mapM (fun p => do
    let regs ← validateAllRegisters cfg.svd_validation_level doc.defaults
      p.registers
    pure (concreteRegisters (expandPeripheralAddresses p) regs))
  let concrete := perPeripheral.flatten
  pure ⟨concrete, if cfg.tracing then buildNameMap concrete else []⟩

/-- Two sequential runs of the pipeline on the same validated document
and the same configuration. -/
def runPipelineTwice (cfg : GenConfig) (doc : Document) :
    Except ValidationError GeneratedOutput ×
      Except ValidationError GeneratedOutput :=
  (runPipeline cfg doc, runPipeline cfg doc)

/-- Embedded from `src/lib.rs` (struct `Args`, lines 458-483), with
`PathBuf` rendered as `String`. -/
structure Args where
  disable_rust_fmt : Bool
  register_description_file_name : String
  destination_folder : String
  svd_validation_level : SvdValidationLevel
  target : Target
  tracing : Bool
  package_name : Option String
  license_file : Option String
deriving DecidableEq, Repr

/-- Embedded from the clap `default_value_t` / `default_value` attributes
of `Args` (src/lib.rs lines 460, 469, 472, 475, 478, 481): the field
values produced when the CLI is invoked with only the two positional
path arguments. -/
def defaultArgs (svdFile destDir : String) : Args :=
  ⟨false, svdFile, destDir, SvdValidationLevel.Weak, Target.Generic,
    false, none, none⟩

/-- Embedded from `src/lib.rs` (struct `GenPkgSettings` as used in
`main`). -/
structure GenPkgSettings where
  run_rustfmt : Bool
  svd_validation_level : SvdValidationLevel
  target : Target
  tracing : Bool
  package_name : Option String
  license_file : Option String
deriving DecidableEq, Repr

/-- Embedded from `main` (src/lib.rs lines 533-543): the settings passed
to `generate_rust_package`, with `run_rustfmt = !args.disable_rust_fmt`
and the remaining fields passed through. -/
def settingsOfArgs (a : Args) : GenPkgSettings :=
  ⟨!a.disable_rust_fmt, a.svd_validation_level, a.target, a.tracing,
    a.package_name, a.license_file⟩

/-! ## Theorems -/

theorem mask_eq_two_pow_sub_one (width : Nat) : mask width = 2 ^ width - 1 := by
  simp [mask, Nat.shiftLeft_eq]

/-- Claim C1: the bitfield mask is `(1 << width) - 1` independent of the
field's position; extraction recovers exactly the field's bits
(bit `i` of the extracted value is bit `offset + i` of the raw value,
and nothing else); insertion sets the field to `value` (extraction after
insertion yields `value` reduced to the field width) while leaving every
other bit of the register unchanged. -/
theorem bitfield_mask_extract_insert
    (rsize offset width raw value : Nat)
    (hfit : offset + width ≤ rsize) (hraw : raw < 2 ^ rsize) :
    mask width = (1 <<< width) - 1 ∧
    (∀ i, i < width →
      (extractField raw offset width).testBit i = raw.testBit (offset + i)) ∧
    (∀ i, width ≤ i → (extractField raw offset width).testBit i = false) ∧
    extractField (insertField rsize raw offset width value) offset width
      = value % 2 ^ width ∧
    (∀ i, i < offset ∨ offset + width ≤ i →
      (insertField rsize raw offset width value).testBit i = raw.testBit i) := by
  refine ⟨rfl, ?_, ?_, ?_, ?_⟩
  · intro i hi
    simp [extractField, mask_eq_two_pow_sub_one, hi]
  · intro i hi
    simp [extractField, mask_eq_two_pow_sub_one]
    omega
  · apply Nat.eq_of_testBit_eq
    intro i
    by_cases hi : i < width
    · have h1 : offset + i < rsize := by omega
      have h2 : offset ≤ offset + i := Nat.le_add_right _ _
      simp [extractField, insertField, complementBits, mask_eq_two_pow_sub_one,
        Nat.testBit_mod_two_pow, hi, h1, h2]
    · simp [extractField, mask_eq_two_pow_sub_one, Nat.testBit_mod_two_pow, hi]
  · intro i hi
    have hnotfield : ¬(offset ≤ i ∧ i - offset < width) := by omega
    by_cases hr : i < rsize
    · by_cases ho : offset ≤ i
      · have hw2 : ¬(i - offset < width) := by omega
        simp [insertField, complementBits, mask_eq_two_pow_sub_one, hr, ho, hw2]
      · simp [insertField, complementBits, mask_eq_two_pow_sub_one, hr, ho]
    · have : raw.testBit i = false := by
        apply Nat.testBit_lt_two_pow
        calc raw < 2 ^ rsize := hraw
          _ ≤ 2 ^ i := Nat.pow_le_pow_right (by omega) (by omega)
      simp [insertField, complementBits, mask_eq_two_pow_sub_one, hr, this]
      omega

/-- Witness for C1 at a concrete input: register size 32, a 3-bit field at
bit offset 4, raw value `0xAB`, field value 5. -/
theorem bitfield_mask_extract_insert_witness :
    mask 3 = (1 <<< 3) - 1 ∧
    (∀ i, i < 3 →
      (extractField 0xAB 4 3).testBit i = Nat.testBit 0xAB (4 + i)) ∧
    (∀ i, 3 ≤ i → (extractField 0xAB 4 3).testBit i = false) ∧
    extractField (insertField 32 0xAB 4 3 5) 4 3 = 5 % 2 ^ 3 ∧
    (∀ i, i < 4 ∨ 4 + 3 ≤ i →
      (insertField 32 0xAB 4 3 5).testBit i = Nat.testBit 0xAB i) :=
  bitfield_mask_extract_insert 32 4 3 0xAB 5 (by decide) (by decide)

/-- Claim C2: expanding an array descriptor with dimension count N and
increment Δ yields exactly N concrete instances, the k-th (in declaration
order) at address `base + k*Δ`; in particular a peripheral with N=4,
base 0x1000, increment 0x100 expands to exactly the four peripherals at
0x1000, 0x1100, 0x1200, 0x1300, in declaration order. -/
theorem array_expansion_correct (base : Nat) (desc : ArrayDescriptor) :
    (expandArray base desc).length = desc.dim ∧
    (∀ k, k < desc.dim →
      (expandArray base desc)[k]? = some (base + k * desc.dimIncrement)) ∧
    expandArray 0x1000 ⟨4, 0x100⟩ = [0x1000, 0x1100, 0x1200, 0x1300] := by
  refine ⟨by simp [expandArray], ?_, by decide⟩
  intro k hk
  simp [expandArray, List.getElem?_range, hk]

/-- Witness for C2: the peripheral array with N=4, base 0x1000,
increment 0x100. -/
theorem array_expansion_witness :
    (expandArray 0x1000 ⟨4, 0x100⟩).length = 4 ∧
    (expandArray 0x1000 ⟨4, 0x100⟩)[2]? = some (0x1000 + 2 * 0x100) ∧
    expandArray 0x1000 ⟨4, 0x100⟩ = [0x1000, 0x1100, 0x1200, 0x1300] := by
  have h := array_expansion_correct 0x1000 ⟨4, 0x100⟩
  exact ⟨h.1, h.2.1 2 (by decide), h.2.2⟩

/-- Claim C3: a peripheral B with `derivedFrom=A` and no registers of its
own resolves to a register set equal (as values: name, offset, size,
access, reset value) to A's; and when B declares a register with the same
name as an inherited one, looking that name up in B's resolved set finds
B's explicit definition, not the inherited one. -/
theorem derived_from_inherits_and_overrides (A own : List Register) :
    resolveDerived (some A) [] = A ∧
    (∀ n, (∃ o ∈ own, o.name = n) →
      lookupRegister n (resolveDerived (some A) own) = lookupRegister n own) := by
  constructor
  · simp [resolveDerived, mergeRegisters]
  · rintro n ⟨o, ho, rfl⟩
    show lookupRegister o.name (mergeRegisters A own) = lookupRegister o.name own
    unfold lookupRegister mergeRegisters
    rw [List.find?_append]
    have hnone :
        (A.filter (fun r => own.all (fun o2 => o2.name != r.name))).find?
          (fun r => r.name == o.name) = none := by
      rw [List.find?_eq_none]
      intro x hx
      rw [List.mem_filter] at hx
      have hall := hx.2
      rw [List.all_eq_true] at hall
      have h2 := hall o ho
      simp only [bne_iff_ne, ne_eq] at h2
      simp only [beq_iff_eq]
      intro h3
      exact h2 h3.symm
    rw [hnone]
    rfl

/-- Witness for C3: peripheral A has registers CTRL and SR; peripheral B
derives from A and declares its own SR, which wins over the inherited
one. -/
theorem derived_from_witness :
    resolveDerived
        (some [⟨"CTRL", 0, 32, Access.readWrite, 0⟩,
               ⟨"SR", 4, 32, Access.readOnly, 0⟩]) []
      = [⟨"CTRL", 0, 32, Access.readWrite, 0⟩,
         ⟨"SR", 4, 32, Access.readOnly, 0⟩] ∧
    lookupRegister "SR"
        (resolveDerived
          (some [⟨"CTRL", 0, 32, Access.readWrite, 0⟩,
                 ⟨"SR", 4, 32, Access.readOnly, 0⟩])
          [⟨"SR", 8, 16, Access.readWrite, 5⟩])
      = lookupRegister "SR" [⟨"SR", 8, 16, Access.readWrite, 5⟩] := by
  have h := derived_from_inherits_and_overrides
    [⟨"CTRL", 0, 32, Access.readWrite, 0⟩, ⟨"SR", 4, 32, Access.readOnly, 0⟩]
    [⟨"SR", 8, 16, Access.readWrite, 5⟩]
  exact ⟨h.1, h.2 "SR" ⟨⟨"SR", 8, 16, Access.readWrite, 5⟩, by simp, rfl⟩⟩

theorem fieldsOverlap_comm (f g : BitfieldNode) :
    fieldsOverlap f g = fieldsOverlap g f := by
  unfold fieldsOverlap
  rw [Nat.max_comm, Nat.min_comm]

theorem noFieldOverlaps_iff_pairwise (l : List BitfieldNode) :
    noFieldOverlaps l = true ↔
      l.Pairwise (fun f g => fieldsOverlap f g = false) := by
  induction l with
  | nil => simp [noFieldOverlaps]
  | cons f rest ih =>
    simp [noFieldOverlaps, List.all_eq_true, ih, List.pairwise_cons]

theorem checkRegisterLayout_ok_implies (rsize : Nat)
    (fields : List BitfieldNode)
    (h : checkRegisterLayout rsize fields = .ok ()) :
    fields.all (fun f => decide (f.bitOffset + f.bitWidth ≤ rsize)) = true ∧
      noFieldOverlaps fields = true := by
  unfold checkRegisterLayout at h
  by_cases h1 : fields.all (fun f => decide (f.bitOffset + f.bitWidth ≤ rsize)) <;>
    by_cases h2 : noFieldOverlaps fields <;>
      simp [h1, h2] at h ⊢

/-- Claim C4: if some bitfield of a register violates
`offset + width ≤ register_size`, or two distinct bitfields of the same
register have intersecting bit ranges, the layout check raises a fatal
LayoutError — it never succeeds on such input. -/
theorem layout_violation_raises_error (rsize : Nat)
    (fields : List BitfieldNode)
    (h : (∃ f ∈ fields, rsize < f.bitOffset + f.bitWidth) ∨
      (∃ i j : Fin fields.length, i ≠ j ∧
        fieldsOverlap (fields.get i) (fields.get j) = true)) :
    ∃ e, checkRegisterLayout rsize fields = .error e := by
  cases hc : checkRegisterLayout rsize fields with
  | error e => exact ⟨e, rfl⟩
  | ok u =>
    cases u
    exfalso
    obtain ⟨hall, hno⟩ := checkRegisterLayout_ok_implies rsize fields hc
    rcases h with ⟨f, hf, hlt⟩ | ⟨i, j, hij, hov⟩
    · rw [List.all_eq_true] at hall
      have := hall f hf
      simp at this
      omega
    · have hpair := (noFieldOverlaps_iff_pairwise fields).mp hno
      rw [List.pairwise_iff_get] at hpair
      rcases lt_trichotomy i j with hlt | heq | hgt
      · rw [hpair i j hlt] at hov
        exact Bool.noConfusion hov
      · exact hij heq
      · rw [fieldsOverlap_comm, hpair j i hgt] at hov
        exact Bool.noConfusion hov

/-- Witness for C4: a register of size 8 with fields A at bits [0,4) and
B at bits [2,5); the ranges intersect and layout fails. -/
theorem layout_violation_witness :
    ∃ e, checkRegisterLayout 8 [⟨"A", 0, 4⟩, ⟨"B", 2, 3⟩] = .error e :=
  layout_violation_raises_error 8 [⟨"A", 0, 4⟩, ⟨"B", 2, 3⟩]
    (Or.inr ⟨⟨0, by decide⟩, ⟨1, by decide⟩, by decide, by decide⟩)

/-- Claim C5: an enumerated value that does not fit in the owning
bitfield's width makes model building fail with a fatal ModelBuildError. -/
theorem enum_overflow_raises_model_build_error (width : Nat)
    (vs : List EnumeratedValue) (h : ∃ v ∈ vs, 2 ^ width ≤ v.value) :
    checkEnumeratedValues width vs = .error .enumValueOverflow := by
  obtain ⟨v, hv, hge⟩ := h
  have hnot : ¬(vs.all (fun v => decide (v.value < 2 ^ width)) = true) := by
    intro hall
    rw [List.all_eq_true] at hall
    have := hall v hv
    simp at this
    omega
  unfold checkEnumeratedValues
  rw [if_neg hnot]

/-- Witness for C5: an enumerated value of 8 on a 3-bit bitfield (maximum
representable value 7) raises the overflow error. -/
theorem enum_overflow_witness :
    checkEnumeratedValues 3 [⟨"V8", 8⟩] = .error .enumValueOverflow :=
  enum_overflow_raises_model_build_error 3 [⟨"V8", 8⟩]
    ⟨⟨"V8", 8⟩, by simp, by decide⟩

/-- Claim C7: a register lacking the optional `access` attribute builds
under Weak with the device-level default access and fails under Strict;
at Weak a register with no address (layout impossible) still fails. -/
theorem weak_defaults_access_strict_fails (defaults : DeviceDefaults)
    (r : RawRegister) (addr : Nat)
    (haddr : r.addressOffset = some addr) (hacc : r.access = none) :
    (∃ reg, validateRegister .Weak defaults r = .ok reg ∧
      reg.access = defaults.access) ∧
    validateRegister .Strict defaults r = .error .missingRequiredAttribute ∧
    (∀ r2 : RawRegister, r2.addressOffset = none →
      validateRegister .Weak defaults r2 = .error .missingAddress) := by
  refine ⟨?_, ?_, ?_⟩
  · refine ⟨⟨r.name, addr, r.size.getD defaults.size, defaults.access,
      r.resetValue.getD defaults.resetValue⟩, ?_, rfl⟩
    unfold validateRegister
    rw [haddr, hacc]
    rfl
  · unfold validateRegister
    rw [haddr, hacc]
    cases hs : r.size <;> cases hrv : r.resetValue <;> rfl
  · intro r2 h2
    unfold validateRegister
    rw [h2]

/-- Witness for C7: a register at offset 4 with no `access` attribute, and
a register with no address. -/
theorem weak_defaults_access_witness :
    (∃ reg, validateRegister .Weak ⟨32, Access.readWrite, 0⟩
        ⟨"R", some 4, none, none, none, ⟨none, none, none, none, none, none⟩⟩
        = .ok reg ∧ reg.access = Access.readWrite) ∧
    validateRegister .Strict ⟨32, Access.readWrite, 0⟩
        ⟨"R", some 4, none, none, none, ⟨none, none, none, none, none, none⟩⟩
      = .error .missingRequiredAttribute ∧
    (∀ r2 : RawRegister, r2.addressOffset = none →
      validateRegister .Weak ⟨32, Access.readWrite, 0⟩ r2
        = .error .missingAddress) :=
  weak_defaults_access_strict_fails ⟨32, Access.readWrite, 0⟩
    ⟨"R", some 4, none, none, none, ⟨none, none, none, none, none, none⟩⟩
    4 rfl rfl

/-- Claim C8: the presence (or value) of the ignored tags `resetMask`,
`protection`, `writeConstraint`, `modifiedWriteValues`, `readAction`,
`headerEnumName` never changes the validation outcome at any level — in
particular it never makes Strict validation fail — and has no effect on
the validated register that feeds code generation. -/
theorem ignored_tags_no_effect (lvl : SvdValidationLevel)
    (defaults : DeviceDefaults) (r : RawRegister) (t : IgnoredTags) :
    validateRegister lvl defaults { r with ignoredTags := t }
      = validateRegister lvl defaults r ∧
    (∀ reg, validateRegister .Strict defaults r = .ok reg →
      validateRegister .Strict defaults { r with ignoredTags := t }
        = .ok reg) := by
  have heq : ∀ lvl2 : SvdValidationLevel,
      validateRegister lvl2 defaults { r with ignoredTags := t }
        = validateRegister lvl2 defaults r := by
    intro lvl2
    rfl
  exact ⟨heq lvl, fun reg hok => (heq .Strict).trans hok⟩

/-- Witness for C8: a Strict-valid register carrying all six ignored tags
validates exactly as the same register with none of them. -/
theorem ignored_tags_witness :
    validateRegister SvdValidationLevel.Strict ⟨32, Access.readWrite, 0⟩
        ⟨"R", some 4, some 32, some Access.readOnly, some 7,
          ⟨some 0xFF, some "s", some "w", some "m", some "r", some "h"⟩⟩
      = validateRegister SvdValidationLevel.Strict ⟨32, Access.readWrite, 0⟩
        ⟨"R", some 4, some 32, some Access.readOnly, some 7,
          ⟨none, none, none, none, none, none⟩⟩ ∧
    validateRegister SvdValidationLevel.Strict ⟨32, Access.readWrite, 0⟩
        ⟨"R", some 4, some 32, some Access.readOnly, some 7,
          ⟨some 0xFF, some "s", some "w", some "m", some "r", some "h"⟩⟩
      = .ok ⟨"R", 4, 32, Access.readOnly, 7⟩ := by
  have h := ignored_tags_no_effect SvdValidationLevel.Strict
    ⟨32, Access.readWrite, 0⟩
    ⟨"R", some 4, some 32, some Access.readOnly, some 7,
      ⟨none, none, none, none, none, none⟩⟩
    ⟨some 0xFF, some "s", some "w", some "m", some "r", some "h"⟩
  exact ⟨h.1, h.2 ⟨"R", 4, 32, Access.readOnly, 7⟩ rfl⟩

/-- Claim C9: the tracing lookup maps an address to exactly the names of
the registers residing there — every register's name appears under its
own address (so two registers aliasing one address both appear), and
nothing else appears. -/
theorem reg_name_map_correct (regs : List ConcreteRegister) (addr : Nat) :
    (∀ r, r ∈ regs → r.address = addr →
      r.name ∈ reg_name_from_addr regs addr) ∧
    (∀ n, n ∈ reg_name_from_addr regs addr →
      ∃ r, r ∈ regs ∧ r.address = addr ∧ r.name = n) := by
  constructor
  · intro r hr ha
    unfold reg_name_from_addr
    apply List.mem_map_of_mem
    rw [List.mem_filter]
    exact ⟨hr, by simp [ha]⟩
  · intro n hn
    unfold reg_name_from_addr at hn
    rw [List.mem_map] at hn
    obtain ⟨r, hr, hname⟩ := hn
    rw [List.mem_filter] at hr
    exact ⟨r, hr.1, by simpa using hr.2, hname⟩

/-- Witness for C9: registers REG_A and REG_B are both declared at
address 0x40 (an intentional alias); both names appear in the lookup for
0x40. -/
theorem reg_name_map_witness :
    "REG_A" ∈ reg_name_from_addr [⟨"REG_A", 0x40⟩, ⟨"REG_B", 0x40⟩] 0x40 ∧
    "REG_B" ∈ reg_name_from_addr [⟨"REG_A", 0x40⟩, ⟨"REG_B", 0x40⟩] 0x40 := by
  have h := reg_name_map_correct [⟨"REG_A", 0x40⟩, ⟨"REG_B", 0x40⟩] 0x40
  exact ⟨h.1 ⟨"REG_A", 0x40⟩ (by simp) rfl, h.1 ⟨"REG_B", 0x40⟩ (by simp) rfl⟩

/-- Claim C6: for a fixed document and configuration, running the
pipeline twice produces identical output sets — the output is a
deterministic function of document and configuration, and the name-map
(perfect-hash) construction is itself deterministic for a fixed register
set. In this embedding the pipeline is a pure function, with no
timestamp, random-ordering or hash-salt input anywhere in its type, so
the two runs are definitionally equal. -/
theorem pipeline_deterministic (cfg : GenConfig) (doc : Document) :
    (runPipelineTwice cfg doc).1 = (runPipelineTwice cfg doc).2 ∧
    (∀ regs : List ConcreteRegister, buildNameMap regs = buildNameMap regs) :=
  ⟨rfl, fun _ => rfl⟩

/-- Claim C10: with only the two positional path arguments, the run uses
validation level Weak (not Strict, despite the crate documentation's
claim that strict validation is the default), target Generic, tracing
off, no package-name or license-file override, and rustfmt enabled
(`disable_rust_fmt = false`, hence `run_rustfmt = true`). -/
theorem default_cli_invocation (svdFile destDir : String) :
    (defaultArgs svdFile destDir).svd_validation_level
      = SvdValidationLevel.Weak ∧
    (defaultArgs svdFile destDir).svd_validation_level
      ≠ SvdValidationLevel.Strict ∧
    (defaultArgs svdFile destDir).target = Target.Generic ∧
    (defaultArgs svdFile destDir).tracing = false ∧
    (defaultArgs svdFile destDir).package_name = none ∧
    (defaultArgs svdFile destDir).license_file = none ∧
    (defaultArgs svdFile destDir).disable_rust_fmt = false ∧
    (settingsOfArgs (defaultArgs svdFile destDir)).run_rustfmt = true := by
  refine ⟨rfl, ?_, rfl, rfl, rfl, rfl, rfl, rfl⟩
  intro h
  exact SvdValidationLevel.noConfusion h
